import Mathlib

/-!
Verification of the `reapyr` reconciliation engine (`src/reapyr/__init__.py`).

The Python engine is embedded shallowly: contexts live in a heap indexed by
`Nat` (creation order, so a child's parent always has a smaller index), the
work loop is a record of queue / event / running flags plus trace
instrumentation, and every mutating method becomes an explicit
state-passing function on an `Engine` value.  Fallible operations return
`Option` (a `none` models a raised Python exception reaching the caller).
-/

namespace Reapyr

/-- Python values stored in hook slots, effect dependency lists and component
props.  Equality is Python value equality. -/
inductive Value where
  | int (i : Int)
  | str (s : String)
  | bool (b : Bool)
deriving DecidableEq

/-- The element model of `reapyr`: `Text` and `Box` are the `Primitive`
subclasses, `comp` stands for any user `Component` subclass, identified by
its qualified class name (`typeName`) and carrying its extra dataclass
fields as `props`.  Every variant keeps the base-class `children` and `key`
fields of the Python `Element` dataclass. -/
inductive Element where
  | text (children : List Element) (key : String) (s : String)
  | box (children : List Element) (key : String)
  | comp (children : List Element) (key : String) (typeName : String) (props : List Value)

mutual

/-- Model of Python `==` on `Element` dataclasses: two elements compare equal
exactly when they are instances of the same concrete class and all dataclass
fields (including the `children` list, compared elementwise) are equal. -/
def elBeq : Element → Element → Bool
  | .text c1 k1 s1, .text c2 k2 s2 => elBeqList c1 c2 && k1 == k2 && s1 == s2
  | .box c1 k1, .box c2 k2 => elBeqList c1 c2 && k1 == k2
  | .comp c1 k1 t1 p1, .comp c2 k2 t2 p2 =>
      elBeqList c1 c2 && k1 == k2 && t1 == t2 && p1 == p2
  | _, _ => false

/-- Python `==` on lists of elements: equal lengths and pairwise equality. -/
def elBeqList : List Element → List Element → Bool
  | [], [] => true
  | a :: as, b :: bs => elBeq a b && elBeqList as bs
  | _, _ => false

end

/-- Model of `type(e).__qualname__`: the concrete class name used in reconciliation
bucket keys and in the `_set_props` type check. -/
def typeNameOf : Element → String
  | .text _ _ _ => "Text"
  | .box _ _ => "Box"
  | .comp _ _ t _ => t

/-- The `key` field of an element. -/
def keyOf : Element → String
  | .text _ k _ => k
  | .box _ k => k
  | .comp _ k _ _ => k

/-- Whether the element is an instance of the `Primitive` subclass family. -/
def isPrimitive : Element → Bool
  | .text _ _ _ => true
  | .box _ _ => true
  | .comp _ _ _ _ => false

/-- Hashability classification of the Python values stored in an element's
dataclass fields.  `hash(element)` is the generated frozen-dataclass hash,
which hashes the tuple of all fields; a tuple hash raises `TypeError` as
soon as one item is unhashable, and a `list` is always unhashable. -/
inductive PyFieldKind where
  | strField
  | intField
  | listField
deriving DecidableEq

/-- The dataclass field tuple of each element variant, by hashability kind:
every variant starts with the base-class `children` list and `key` string. -/
def elemFieldKinds : Element → List PyFieldKind
  | .text _ _ _ => [.listField, .strField, .strField]
  | .box _ _ => [.listField, .strField]
  | .comp _ _ _ props => [.listField, .strField] ++ props.map (fun _ => .strField)

/-- Whether hashing one field of the dataclass tuple succeeds in Python. -/
def fieldHashable : PyFieldKind → Bool
  | .listField => false
  | _ => true

/-- Whether `hash(element)` is well-defined (raises no `TypeError`). -/
def elemHashable (e : Element) : Bool :=
  (elemFieldKinds e).all fieldHashable

/-- The `WorkLoop` dataclass: FIFO queue of pending callbacks (callbacks are
identified by numeric ids), the level-triggered `_event` flag and the
`_running` flag.  `wakes` and `executed` are trace instrumentation recording
how many times `wake()` was called and which callbacks the loop has run;
they model no Python state of their own. -/
structure WorkLoop where
  queue : List Nat
  event : Bool
  running : Bool
  wakes : Nat
  executed : List Nat
deriving DecidableEq

/-- Model of `WorkLoop.wake`: set the event. -/
def wakeL (w : WorkLoop) : WorkLoop :=
  { w with event := true, wakes := w.wakes + 1 }

/-- Model of `WorkLoop.push_work`: append the callback to the queue, then wake. -/
def pushWorkL (w : WorkLoop) (cb : Nat) : WorkLoop :=
  wakeL { w with queue := w.queue ++ [cb] }

/-- Model of `WorkLoop.stop`: clear the running flag, then wake. -/
def stopL (w : WorkLoop) : WorkLoop :=
  wakeL { w with running := false }

/-- The bucketed child-context map `(type-name, key) -> list of contexts`,
as an insertion-ordered association list (Python dicts preserve insertion
order); the contexts are identified by their heap index. -/
def SubMap : Type := List ((String × String) × List Nat)

/-- The `ComponentContext` dataclass.  `parent` is the heap index of the
parent context; hook callbacks are identified by numeric ids; `refList`
stores indices into the engine's ref heap. -/
structure Ctx where
  component : Element
  parent : Option Nat
  invalidated : Bool
  materialized : Option Element
  effectList : List (Nat × List Value)
  effectIndex : Nat
  refList : List Nat
  refIndex : Nat
  stateList : List Value
  stateIndex : Nat
  subMap : SubMap
  prevSubMap : SubMap

/-- Model of `ComponentContext(component, parent_context=p)` with all defaulted
fields: freshly created contexts start invalidated with empty hook storage. -/
def newCtx (component : Element) (parent : Option Nat) : Ctx :=
  { component := component
    parent := parent
    invalidated := true
    materialized := none
    effectList := []
    effectIndex := 0
    refList := []
    refIndex := 0
    stateList := []
    stateIndex := 0
    subMap := []
    prevSubMap := [] }

/-- The whole engine state: the context heap (indexed by creation order, so
a context's parent always has a smaller index), the heap of `Ref.current`
cells, and the process-wide work loop. -/
structure Engine where
  ctxs : List Ctx
  refs : List Value
  loop : WorkLoop

def getCtx (e : Engine) (i : Nat) : Option Ctx := e.ctxs[i]?

def setCtx (e : Engine) (i : Nat) (c : Ctx) : Engine :=
  { e with ctxs := e.ctxs.set i c }

/-- Model of `_work_loop.wake()` as seen from the engine. -/
def wake (e : Engine) : Engine := { e with loop := wakeL e.loop }

/-- Model of `_work_loop.push_work(cb)` as seen from the engine. -/
def pushWork (e : Engine) (cb : Nat) : Engine :=
  { e with loop := pushWorkL e.loop cb }

/-- Setting a context's invalidated flag (the in-place mutation
`self._invalidated = True`). -/
def setInv (c : Ctx) : Ctx := { c with invalidated := true }

/-- Model of `ComponentContext._invalidate(propagate)`, with fuel bounding the parent
recursion (creation order makes parent chains strictly decreasing, so fuel
`i + 1` always suffices): set the local flag, and if propagating, recurse
into the parent with propagation also enabled. -/
def invalidateAux : Nat → Engine → Nat → Bool → Engine
  | 0, e, _, _ => e
  | fuel + 1, e, i, propagate =>
    match getCtx e i with
    | none => e
    | some c =>
      let e' := setCtx e i (setInv c)
      if propagate then
        match c.parent with
        | some p => invalidateAux fuel e' p true
        | none => e'
      else e'

def invalidate (e : Engine) (i : Nat) (propagate : Bool) : Engine :=
  invalidateAux (i + 1) e i propagate

/-- Model of `ComponentContext._begin_materialization()`: clear the invalidated flag,
reset the three hook cursors, rotate the child-context map generations. -/
def beginC (c : Ctx) : Ctx :=
  { c with
    invalidated := false
    effectIndex := 0
    refIndex := 0
    stateIndex := 0
    prevSubMap := c.subMap
    subMap := [] }

def beginMaterialization (e : Engine) (i : Nat) : Engine :=
  match getCtx e i with
  | none => e
  | some c => setCtx e i (beginC c)

/-- Outcome of `ComponentContext._set_props`: success, or one of the two
distinguishable identity errors (`TypeError` / `ValueError`). -/
inductive PropsResult where
  | ok
  | typeMismatch
  | keyMismatch
deriving DecidableEq

/-- Model of `ComponentContext._set_props(new_component)`: a no-op when the new
component compares `==` to the current one; otherwise the concrete type and
key must match (the checks raise before any mutation, so on error the state
is returned untouched), and on success the component is replaced and the
context invalidated locally (non-propagating). -/
def setProps (e : Engine) (i : Nat) (newComponent : Element) : PropsResult × Engine :=
  match getCtx e i with
  | none => (.ok, e)
  | some c =>
    if elBeq newComponent c.component then (.ok, e)
    else if !(typeNameOf newComponent == typeNameOf c.component) then (.typeMismatch, e)
    else if !(keyOf newComponent == keyOf c.component) then (.keyMismatch, e)
    else (.ok, invalidate (setCtx e i { c with component := newComponent }) i false)

/-- Model of `ComponentContext.use_effect(effect, deps)`: read and bump the cursor;
a first call at this cursor appends the `(effect, deps)` slot (the `assert`
then demands the cursor equals the new length) and enqueues the effect;
otherwise the stored dependency list is compared by value: unchanged deps do
nothing, changed deps overwrite the slot and enqueue the new effect. -/
def useEffect (e : Engine) (i : Nat) (cb : Nat) (deps : List Value) : Option Engine :=
  match getCtx e i with
  | none => none
  | some c =>
    let index := c.effectIndex
    let c1 := { c with effectIndex := index + 1 }
    if index ≥ c1.effectList.length then
      let c2 := { c1 with effectList := c1.effectList ++ [(cb, deps)] }
      if c2.effectIndex = c2.effectList.length then
        some (pushWork (setCtx e i c2) cb)
      else none
    else
      match c1.effectList[index]? with
      | none => none
      | some (_, oldDeps) =>
        if oldDeps = deps then some (setCtx e i c1)
        else some (pushWork (setCtx e i
          { c1 with effectList := c1.effectList.set index (cb, deps) }) cb)

/-- Model of `ComponentContext.use_ref(initial_value)`: allocate a fresh `Ref` cell
holding the initial value if the cursor is past the end of the ref slot
list, then return the cell at the cursor and bump the cursor.  Cells live in
the engine's ref heap and are returned by index (Python object identity). -/
def useRef (e : Engine) (i : Nat) (initialValue : Value) : Option (Nat × Engine) :=
  match getCtx e i with
  | none => none
  | some c =>
    let alloc := decide (c.refIndex ≥ c.refList.length)
    let c1 := if alloc then { c with refList := c.refList ++ [e.refs.length] } else c
    let e1 := if alloc then { e with refs := e.refs ++ [initialValue] } else e
    match c1.refList[c1.refIndex]? with
    | none => none
    | some r => some (r, setCtx e1 i { c1 with refIndex := c1.refIndex + 1 })

/-- A write to `ref.current` from outside the engine. -/
def refWrite (e : Engine) (r : Nat) (v : Value) : Engine :=
  { e with refs := e.refs.set r v }

/-- Model of `ComponentContext.use_state(initial_value)`: read and bump the cursor;
a first call at this cursor appends a slot holding the initial value (the
`assert` then demands the cursor equals the new length); the stored value at
the cursor is returned together with the slot index, which identifies the
returned `set_state` closure. -/
def useState (e : Engine) (i : Nat) (initialValue : Value) :
    Option ((Value × Nat) × Engine) :=
  match getCtx e i with
  | none => none
  | some c =>
    let index := c.stateIndex
    let c1 := { c with stateIndex := index + 1 }
    if index ≥ c1.stateList.length then
      let c2 := { c1 with stateList := c1.stateList ++ [initialValue] }
      if c2.stateIndex = c2.stateList.length then
        match c2.stateList[index]? with
        | none => none
        | some v => some ((v, index), setCtx e i c2)
      else none
    else
      match c1.stateList[index]? with
      | none => none
      | some v => some ((v, index), setCtx e i c1)

/-- The `set_state` closure returned by `use_state`, identified by its
captured context index and slot index: overwrite the slot in place,
invalidate with propagation, then wake the work loop once. -/
def setState (e : Engine) (i : Nat) (index : Nat) (v : Value) : Engine :=
  match getCtx e i with
  | none => e
  | some c =>
    wake (invalidate (setCtx e i { c with stateList := c.stateList.set index v }) i true)

/-- Model of `ComponentContext._get_subcontext_typekey(subcomponent)`. -/
def typekeyOf (c : Element) : String × String := (typeNameOf c, keyOf c)

/-- The bucket of a `(type, key)` pair in a child-context map (a
`defaultdict(list)` read defaults to the empty bucket). -/
def bucketGet (m : SubMap) (tk : String × String) : List Nat :=
  match m with
  | [] => []
  | (k, l) :: rest => if k = tk then l else bucketGet rest tk

/-- Append one context to a bucket, creating the bucket at the end of the
map if absent (Python dict insertion order). -/
def bucketAppend (m : SubMap) (tk : String × String) (x : Nat) : SubMap :=
  match m with
  | [] => [(tk, [x])]
  | (k, l) :: rest =>
    if k = tk then (k, l ++ [x]) :: rest else (k, l) :: bucketAppend rest tk x

/-- Model of `ComponentContext._init_subcontext(subcomponent)`: within the
subcomponent's `(type, key)` bucket, if this render has so far requested
fewer children than existed in the previous render's bucket, reuse the next
previous context positionally and push the new props into it (a props error
propagates as an exception, `none`); otherwise create a brand-new context
parented here.  Either way the chosen context is appended to the current
generation's bucket. -/
def initSubcontext (e : Engine) (i : Nat) (subcomponent : Element) :
    Option (Nat × Engine) :=
  match getCtx e i with
  | none => none
  | some c =>
    let tk := typekeyOf subcomponent
    let subs := bucketGet c.subMap tk
    let prevs := bucketGet c.prevSubMap tk
    if h : subs.length < prevs.length then
      let scId := prevs.get ⟨subs.length, h⟩
      match setProps e scId subcomponent with
      | (.ok, e1) =>
        match getCtx e1 i with
        | none => none
        | some c1 =>
          some (scId, setCtx e1 i { c1 with subMap := bucketAppend c1.subMap tk scId })
      | (_, _) => none
    else
      let scId := e.ctxs.length
      let e1 := { e with ctxs := e.ctxs ++ [newCtx subcomponent (some i)] }
      match getCtx e1 i with
      | none => none
      | some c1 =>
        some (scId, setCtx e1 i { c1 with subMap := bucketAppend c1.subMap tk scId })

/-- Clear the parent reference of each removed subcontext in turn. -/
def detachRemoved (e : Engine) (removed : List Nat) : Engine :=
  match removed with
  | [] => e
  | r :: rest =>
    match getCtx e r with
    | none => detachRemoved e rest
    | some cr => detachRemoved (setCtx e r { cr with parent := none }) rest

/-- The loop body of `_finalize_subcontexts` over the previous generation's
map entries: the order-preservation sanity `assert` (reused buckets are
positional prefixes of the previous generation, holding the same context
objects, so Python's deep `==` coincides with index equality here; a failed
`assert` is an exception, `none`), then detach every previous context past
the new bucket's length. -/
def finalizeLoop (e : Engine) (i : Nat) :
    List ((String × String) × List Nat) → Option Engine
  | [] => some e
  | (tk, prevs) :: rest =>
    match getCtx e i with
    | none => none
    | some c =>
      let news := bucketGet c.subMap tk
      if (news.zip prevs).all (fun p => p.1 == p.2) then
        finalizeLoop (detachRemoved e (prevs.drop news.length)) i rest
      else none

/-- Model of `ComponentContext._finalize_subcontexts()`: walk the previous
generation's buckets detaching unclaimed contexts, then clear the previous
generation's map. -/
def finalizeSubcontexts (e : Engine) (i : Nat) : Option Engine :=
  match getCtx e i with
  | none => none
  | some c =>
    match finalizeLoop e i c.prevSubMap with
    | none => none
    | some e1 =>
      match getCtx e1 i with
      | none => none
      | some c1 => some (setCtx e1 i { c1 with prevSubMap := [] })

/-- A pending recursive call of the materialization algorithm:
`ctx i` is `context_i.materialize()`, `elem i el` is
`context_i._materialize_element(el)`, and `elems i els` is the list
comprehension materializing the children of a primitive. -/
inductive MCall where
  | ctx (i : Nat)
  | elem (i : Nat) (el : Element)
  | elems (i : Nat) (els : List Element)

/-- Result of a materialization call: a single primitive tree, or the list
of materialized children. -/
inductive MRes where
  | one (el : Element)
  | many (els : List Element)

/-- The dynamic dispatch `self.component.render(self)`: given the component
value and its context index, produce the shallow subtree, possibly calling
hooks on the context (hence the engine threading).  `none` models an
exception escaping `render`. -/
def RenderFn : Type := Element → Nat → Engine → Option (Element × Engine)

/-- Model of `ComponentContext.materialize` and `_materialize_element`, fuel-indexed
(every recursive call runs at the predecessor fuel, so the recursion is
structural and computable by the kernel).

`ctx i`: if the context is invalidated or has no cache, begin
materialization, render the bound component, recursively expand the shallow
subtree, store it as the cache, finalize subcontexts and return it;
otherwise return the cache with the engine untouched.

`elem i el`: a childless primitive is returned as-is (structural sharing); a
primitive with children is rebuilt with each child expanded; a component is
resolved through `_init_subcontext` and that subcontext's own
`materialize()` result substituted. -/
def matAux (render : RenderFn) : Nat → MCall → Engine → Option (MRes × Engine)
  | 0, _, _ => none
  | fuel + 1, .ctx i, e =>
    match getCtx e i with
    | none => none
    | some c =>
      if c.invalidated || c.materialized.isNone then
        let e1 := beginMaterialization e i
        match render c.component i e1 with
        | none => none
        | some (shallow, e2) =>
          match matAux render fuel (.elem i shallow) e2 with
          | some (.one prim, e3) =>
            match getCtx e3 i with
            | none => none
            | some c3 =>
              let e4 := setCtx e3 i { c3 with materialized := some prim }
              match finalizeSubcontexts e4 i with
              | none => none
              | some e5 => some (.one prim, e5)
          | _ => none
      else
        match c.materialized with
        | some p => some (.one p, e)
        | none => none
  | fuel + 1, .elem i el, e =>
    match el with
    | .text children key s =>
      if children.isEmpty then some (.one el, e)
      else
        match matAux render fuel (.elems i children) e with
        | some (.many cs, e1) => some (.one (.text cs key s), e1)
        | _ => none
    | .box children key =>
      if children.isEmpty then some (.one el, e)
      else
        match matAux render fuel (.elems i children) e with
        | some (.many cs, e1) => some (.one (.box cs key), e1)
        | _ => none
    | .comp _ _ _ _ =>
      match initSubcontext e i el with
      | none => none
      | some (scId, e1) =>
        match matAux render fuel (.ctx scId) e1 with
        | some (.one prim, e2) => some (.one prim, e2)
        | _ => none
  | fuel + 1, .elems i els, e =>
    match els with
    | [] => some (.many [], e)
    | x :: xs =>
      match matAux render fuel (.elem i x) e with
      | some (.one m, e1) =>
        match matAux render fuel (.elems i xs) e1 with
        | some (.many ms, e2) => some (.many (m :: ms), e2)
        | _ => none
      | _ => none

/-- Model of `context.materialize()` at the given fuel. -/
def materialize (render : RenderFn) (fuel : Nat) (e : Engine) (i : Nat) :
    Option (Element × Engine) :=
  match matAux render fuel (.ctx i) e with
  | some (.one p, e1) => some (p, e1)
  | _ => none

/-- One context's parent index is strictly below its own index. -/
def ctxParentLt (c : Ctx) (i : Nat) : Bool :=
  match c.parent with
  | some p => decide (p < i)
  | none => true

/-- Contexts from heap position `n` on have strictly decreasing parents. -/
def parentsLtFrom : Nat → List Ctx → Bool
  | _, [] => true
  | n, c :: rest => ctxParentLt c n && parentsLtFrom (n + 1) rest

/-- The representation invariant of the context heap: every context's
parent was created earlier (holds because `_init_subcontext` always creates
children after their parent). -/
def parentsLtB (l : List Ctx) : Bool := parentsLtFrom 0 l

/-- The ancestor chain of a context: itself, then its parent's chain.  Fuel
`i + 1` suffices whenever parents strictly decrease. -/
def chainAux : Nat → Engine → Nat → List Nat
  | 0, _, _ => []
  | fuel + 1, e, i =>
    match getCtx e i with
    | none => []
    | some c =>
      i :: (match c.parent with
        | some p => chainAux fuel e p
        | none => [])

def chain (e : Engine) (i : Nat) : List Nat := chainAux (i + 1) e i

/-- Phase of `run_forever`: not yet entered, draining the queue, blocked at
`await self._sleep()`, or returned. -/
inductive LPhase where
  | idle
  | drain
  | asleep
  | done
deriving DecidableEq

/-- The work loop together with the control position of `run_forever`. -/
structure LoopState where
  wl : WorkLoop
  phase : LPhase
deriving DecidableEq

/-- Actions of the loop semantics.  `start` enters `run_forever`; `tick`
lets the loop itself advance one step; `push`/`stopReq` are the externally
callable `push_work`/`stop`, possible before the loop starts or while it is
suspended at its await point (the only places other asyncio tasks run). -/
inductive LAct where
  | start
  | tick
  | push (cb : Nat)
  | stopReq

/-- Small-step semantics of `WorkLoop.run_forever`, parameterized by the
engine-side behaviour of the pre-sleep hook (`pre`, the root driver's
re-render, which may push work) and of each executed callback (`runCb`).
On `start`, `run_forever` unconditionally sets `_running = True` and enters
the loop.  In `drain`, a queued callback is popped and run; an empty queue
runs `pre_sleep` and blocks.  A sleeping loop resumes only when the event is
set; it clears the event and re-checks `_running` to either drain again or
return.  Actions that are impossible at the current phase leave the state
unchanged. -/
def loopStep (pre : WorkLoop → WorkLoop) (runCb : Nat → WorkLoop → WorkLoop)
    (s : LoopState) (a : LAct) : LoopState :=
  match a, s.phase with
  | .start, .idle => { wl := { s.wl with running := true }, phase := .drain }
  | .tick, .drain =>
    match s.wl.queue with
    | cb :: rest =>
      { s with wl := runCb cb { s.wl with queue := rest, executed := s.wl.executed ++ [cb] } }
    | [] => { wl := pre s.wl, phase := .asleep }
  | .tick, .asleep =>
    if s.wl.event then
      let wl1 := { s.wl with event := false }
      if wl1.running then { wl := wl1, phase := .drain }
      else { wl := wl1, phase := .done }
    else s
  | .push cb, .idle => { s with wl := pushWorkL s.wl cb }
  | .push cb, .asleep => { s with wl := pushWorkL s.wl cb }
  | .stopReq, .idle => { s with wl := stopL s.wl }
  | .stopReq, .asleep => { s with wl := stopL s.wl }
  | _, _ => s

/-- Run a sequence of actions from a state. -/
def runActs (pre : WorkLoop → WorkLoop) (runCb : Nat → WorkLoop → WorkLoop)
    (s : LoopState) (acts : List LAct) : LoopState :=
  acts.foldl (loopStep pre runCb) s

/-- The `TextChild` component of the keyed-reconciliation scenario: a
same-typed child with key `"a"`, carrying one integer prop. -/
def textChild (n : Int) : Element := .comp [] "a" "TextChild" [.int n]

/-- The scenario's parent component, whose single integer prop is the number
of `TextChild(key="a")` children it renders. -/
def parentComp (n : Int) : Element := .comp [] "" "Parent" [.int n]

/-- Render functions of the scenario components: `Parent(n)` renders a box
of `n` same-typed, same-keyed `TextChild` children (each handed the current
`n` as its prop), and `TextChild` renders a text primitive.  Neither calls
hooks. -/
def demoRender : RenderFn := fun component _ e =>
  match component with
  | .comp _ _ "Parent" [.int n] =>
    some (.box (List.replicate n.toNat (textChild n)) "", e)
  | .comp _ _ "TextChild" _ => some (.text [] "" "hi", e)
  | _ => none

/-- An idle work loop with nothing queued. -/
def wl0 : WorkLoop :=
  { queue := [], event := false, running := true, wakes := 0, executed := [] }

/-- Initial engine of the scenario: one root context freshly bound to
`Parent(2)`. -/
def demoE0 : Engine := { ctxs := [newCtx (parentComp 2) none], refs := [], loop := wl0 }

/-- Engine state after the first materialization pass. -/
def demoE1 : Engine :=
  match materialize demoRender 10 demoE0 0 with
  | some (_, e) => e
  | none => demoE0

/-- Engine state after pushing `Parent(1)` into the root context (the root
driver's props update before the second pass). -/
def demoE1b : Engine := (setProps demoE1 0 (parentComp 1)).2

/-- Engine state after the second materialization pass. -/
def demoE2 : Engine :=
  match materialize demoRender 10 demoE1b 0 with
  | some (_, e) => e
  | none => demoE1b

/-- The context heap's creation-order invariant as a proposition. -/
def ParentsLt (e : Engine) : Prop :=
  ∀ i c, getCtx e i = some c → ∀ p, c.parent = some p → p < i

/-- A single fresh context bound to a `TextChild`, used by concrete witness
engines. -/
def ctxW : Ctx := newCtx (textChild 0) none

/-- A one-context engine whose context is freshly created (all hook cursors
and slot lists empty). -/
def engW : Engine := { ctxs := [ctxW], refs := [], loop := wl0 }

/-- A one-context engine whose context is clean and holds a cached
materialized tree. -/
def engClean : Engine :=
  { ctxs := [{ ctxW with invalidated := false, materialized := some (.text [] "" "x") }]
    refs := []
    loop := wl0 }

/-- A clean root context for the two-context witness engine. -/
def ctxRoot : Ctx := { (newCtx (parentComp 1) none) with invalidated := false }

/-- A clean child context holding one state slot, one effect slot and one
ref slot, with every hook cursor past its slot. -/
def ctxChild1 : Ctx :=
  { ctxW with
      parent := some 0
      invalidated := false
      stateList := [.int 5]
      stateIndex := 1
      effectList := [(0, [.int 5])]
      effectIndex := 1
      refList := [0]
      refIndex := 1 }

/-- A two-context engine: a clean root and a clean child (with the ref heap
populated). -/
def engChild : Engine :=
  { ctxs := [ctxRoot, ctxChild1], refs := [.int 9], loop := wl0 }

/-- A one-context engine whose context carries one stored effect slot with
its cursor already reset (as after `_begin_materialization`). -/
def engEffect : Engine :=
  { ctxs := [{ ctxW with effectList := [(0, [.int 5])] }], refs := [], loop := wl0 }

/-- A one-context engine whose context carries one allocated ref slot with
its cursor already reset (as after `_begin_materialization`). -/
def engRef : Engine :=
  { ctxs := [{ ctxW with refList := [0] }], refs := [.int 9], loop := wl0 }

/-- Work callbacks whose bodies do not touch the loop state. -/
def inertCb : Nat → WorkLoop → WorkLoop := fun _ w => w

/-- The shutdown trace: the loop starts, drains its (empty) queue and goes
to sleep; while it is blocked, another task pushes callback `7` and then
calls `stop()`. -/
def c7AtStop : LoopState :=
  runActs id inertCb { wl := wl0, phase := .idle } [.start, .tick, .push 7, .stopReq]

/-- The state after the loop wakes from the stop request and acts on it. -/
def c7Final : LoopState := loopStep id inertCb c7AtStop .tick

end Reapyr


namespace Reapyr

theorem engine_ext {e1 e2 : Engine} (hc : e1.ctxs = e2.ctxs) (hr : e1.refs = e2.refs)
    (hl : e1.loop = e2.loop) : e1 = e2 := by
  cases e1; cases e2; simp_all

theorem getCtx_lt {e : Engine} {i : Nat} {c : Ctx} (h : getCtx e i = some c) :
    i < e.ctxs.length := by
  simpa [getCtx] using (List.getElem?_eq_some_iff.mp h).1

theorem getCtx_setCtx_self {e : Engine} {i : Nat} (c : Ctx) (h : i < e.ctxs.length) :
    getCtx (setCtx e i c) i = some c := by
  simp [getCtx, setCtx, List.getElem?_set_self h]

theorem getCtx_setCtx_ne {e : Engine} {i j : Nat} (c : Ctx) (h : i ≠ j) :
    getCtx (setCtx e i c) j = getCtx e j := by
  simp [getCtx, setCtx, List.getElem?_set_ne h]

theorem length_setCtx (e : Engine) (i : Nat) (c : Ctx) :
    (setCtx e i c).ctxs.length = e.ctxs.length := by
  simp [setCtx]

theorem refs_setCtx (e : Engine) (i : Nat) (c : Ctx) : (setCtx e i c).refs = e.refs := rfl

theorem loop_setCtx (e : Engine) (i : Nat) (c : Ctx) : (setCtx e i c).loop = e.loop := rfl

theorem setInv_idem (c : Ctx) : setInv (setInv c) = setInv c := rfl

theorem parent_setInv (c : Ctx) : (setInv c).parent = c.parent := rfl

theorem parentsLtFrom_spec :
    ∀ (l : List Ctx) (n : Nat), parentsLtFrom n l = true →
      ∀ i c, l[i]? = some c → ∀ p, c.parent = some p → p < n + i := by
  intro l
  induction l with
  | nil => intro n _ i c hc; simp at hc
  | cons hd tl ih =>
    intro n h i c hc p hp
    rw [parentsLtFrom, Bool.and_eq_true] at h
    match i with
    | 0 =>
      simp at hc
      subst hc
      have := h.1
      rw [ctxParentLt, hp] at this
      simpa using this
    | i + 1 =>
      simp only [List.getElem?_cons_succ] at hc
      have := ih (n + 1) h.2 i c hc p hp
      omega

theorem parentsLt_of_B {e : Engine} (h : parentsLtB e.ctxs = true) : ParentsLt e := by
  intro i c hc p hp
  simpa using parentsLtFrom_spec e.ctxs 0 h i c (by simpa [getCtx] using hc) p hp

theorem parentsLt_setCtx {e : Engine} {i : Nat} {c c' : Ctx}
    (hget : getCtx e i = some c) (hpar : c'.parent = c.parent) (h : ParentsLt e) :
    ParentsLt (setCtx e i c') := by
  intro j cj hj p hp
  by_cases hij : i = j
  · subst hij
    rw [getCtx_setCtx_self c' (getCtx_lt hget)] at hj
    cases hj
    exact h i c hget p (by rw [← hpar]; exact hp)
  · rw [getCtx_setCtx_ne c' hij] at hj
    exact h j cj hj p hp

theorem chainAux_congr {e1 e : Engine}
    (h : ∀ j, (getCtx e1 j).map Ctx.parent = (getCtx e j).map Ctx.parent) :
    ∀ fuel i, chainAux fuel e1 i = chainAux fuel e i := by
  intro fuel
  induction fuel with
  | zero => intro i; rfl
  | succ f ih =>
    intro i
    have hi := h i
    simp only [chainAux]
    cases he : getCtx e i with
    | none =>
      have he1 : getCtx e1 i = none := by
        cases he1 : getCtx e1 i with
        | none => rfl
        | some c1 => rw [he1, he] at hi; simp at hi
      simp [he, he1]
    | some c =>
      cases he1 : getCtx e1 i with
      | none => rw [he1, he] at hi; simp at hi
      | some c1 =>
        rw [he1, he] at hi
        have hpp : c1.parent = c.parent := by simpa using hi
        simp only [he, he1, hpp]
        cases c.parent with
        | none => rfl
        | some p => simp only []; rw [ih]

theorem chainAux_fuel {e : Engine} (h : ParentsLt e) :
    ∀ i fuel, i + 1 ≤ fuel → chainAux fuel e i = chain e i := by
  intro i
  induction i using Nat.strong_induction_on with
  | _ i ih =>
    intro fuel hfuel
    match fuel, hfuel with
    | f + 1, _ =>
      rw [chain]
      simp only [chainAux]
      cases he : getCtx e i with
      | none => simp [he]
      | some c =>
        cases hp : c.parent with
        | none => simp [he, hp]
        | some p =>
          have hpi : p < i := h i c he p hp
          simp only [he, hp]
          rw [ih p hpi f (by omega), ih p hpi i (by omega)]

theorem chain_cons {e : Engine} {i : Nat} {c : Ctx} {p : Nat} (h : ParentsLt e)
    (hget : getCtx e i = some c) (hp : c.parent = some p) :
    chain e i = i :: chain e p := by
  have hpi : p < i := h i c hget p hp
  rw [chain]
  simp only [chainAux, hget, hp]
  rw [chainAux_fuel h p i (by omega)]

theorem chain_root {e : Engine} {i : Nat} {c : Ctx} (hget : getCtx e i = some c)
    (hp : c.parent = none) : chain e i = [i] := by
  simp [chain, chainAux, hget, hp]

theorem chain_missing {e : Engine} {i : Nat} (hget : getCtx e i = none) :
    chain e i = [] := by
  simp [chain, chainAux, hget]

theorem mem_chainAux_isSome {e : Engine} :
    ∀ fuel i j, j ∈ chainAux fuel e i → (getCtx e j).isSome := by
  intro fuel
  induction fuel with
  | zero => intro i j hj; simp [chainAux] at hj
  | succ f ih =>
    intro i j hj
    rw [chainAux] at hj
    cases he : getCtx e i with
    | none => rw [he] at hj; simp at hj
    | some c =>
      rw [he] at hj
      rcases List.mem_cons.mp hj with rfl | hj'
      · simp [he]
      · cases hp : c.parent with
        | none => rw [hp] at hj'; simp at hj'
        | some p => rw [hp] at hj'; exact ih p j hj'

theorem mem_chain_isSome {e : Engine} {i j : Nat} (hj : j ∈ chain e i) :
    (getCtx e j).isSome := mem_chainAux_isSome (i + 1) i j hj

theorem self_mem_chain {e : Engine} {i : Nat} {c : Ctx} (hget : getCtx e i = some c) :
    i ∈ chain e i := by
  rw [chain, chainAux, hget]
  exact List.mem_cons_self i _

theorem parentsLt_congr {e1 e : Engine}
    (h : ∀ j, (getCtx e1 j).map Ctx.parent = (getCtx e j).map Ctx.parent)
    (hP : ParentsLt e) : ParentsLt e1 := by
  intro j cj hj p hp
  have hj' := h j
  rw [hj] at hj'
  cases he : getCtx e j with
  | none => rw [he] at hj'; simp at hj'
  | some c' =>
    rw [he] at hj'
    have : cj.parent = c'.parent := by simpa using hj'
    exact hP j c' he p (by rw [← this]; exact hp)

/-- Reduction of one propagating `_invalidate` step when the context is
missing (defensive; unreachable in real runs). -/
theorem invalidateAux_succ_none {f : Nat} {e : Engine} {i : Nat} {prop : Bool}
    (he : getCtx e i = none) : invalidateAux (f + 1) e i prop = e := by
  simp [invalidateAux, he]

/-- Reduction of one non-propagating `_invalidate` step. -/
theorem invalidateAux_succ_false {f : Nat} {e : Engine} {i : Nat} {c : Ctx}
    (he : getCtx e i = some c) :
    invalidateAux (f + 1) e i false = setCtx e i (setInv c) := by
  simp [invalidateAux, he]

/-- Reduction of one propagating `_invalidate` step at a root context. -/
theorem invalidateAux_succ_root {f : Nat} {e : Engine} {i : Nat} {c : Ctx}
    (he : getCtx e i = some c) (hp : c.parent = none) :
    invalidateAux (f + 1) e i true = setCtx e i (setInv c) := by
  simp only [invalidateAux, he]
  rw [if_pos trivial, hp]

/-- Reduction of one propagating `_invalidate` step with recursion into the
parent. -/
theorem invalidateAux_succ_parent {f : Nat} {e : Engine} {i : Nat} {c : Ctx} {p : Nat}
    (he : getCtx e i = some c) (hp : c.parent = some p) :
    invalidateAux (f + 1) e i true = invalidateAux f (setCtx e i (setInv c)) p true := by
  simp only [invalidateAux, he]
  rw [if_pos trivial, hp]

/-- Storing back a context whose parent field is unchanged preserves the
parent map of the whole heap. -/
theorem parent_map_setCtx {e : Engine} {i : Nat} {c c' : Ctx}
    (he : getCtx e i = some c) (hpar : c'.parent = c.parent) :
    ∀ j, (getCtx (setCtx e i c') j).map Ctx.parent = (getCtx e j).map Ctx.parent := by
  intro j
  by_cases hj : i = j
  · subst hj
    rw [getCtx_setCtx_self _ (getCtx_lt he), he]
    simp [hpar]
  · rw [getCtx_setCtx_ne _ hj]

/-- The function `_invalidate` never changes any context's parent reference (it touches
only invalidated flags), whatever the fuel and propagation flag. -/
theorem invalidateAux_parent_map :
    ∀ (fuel : Nat) (e : Engine) (i : Nat) (prop : Bool) (j : Nat),
      (getCtx (invalidateAux fuel e i prop) j).map Ctx.parent =
        (getCtx e j).map Ctx.parent := by
  intro fuel
  induction fuel with
  | zero => intro e i prop j; rfl
  | succ f ih =>
    intro e i prop j
    cases he : getCtx e i with
    | none => rw [invalidateAux_succ_none he]
    | some c =>
      cases prop with
      | false => rw [invalidateAux_succ_false he]; exact parent_map_setCtx he (parent_setInv c) j
      | true =>
        cases hp : c.parent with
        | none => rw [invalidateAux_succ_root he hp]; exact parent_map_setCtx he (parent_setInv c) j
        | some p =>
          rw [invalidateAux_succ_parent he hp, ih, parent_map_setCtx he (parent_setInv c) j]

/-- Observable effect of a propagating `_invalidate` with sufficient fuel
under the creation-order invariant: exactly the contexts on the ancestor
chain get their invalidated flag set; refs and work loop are untouched. -/
theorem invalidateAux_true_spec :
    ∀ (fuel : Nat) (e : Engine) (i : Nat), ParentsLt e → i + 1 ≤ fuel →
      (invalidateAux fuel e i true).refs = e.refs ∧
      (invalidateAux fuel e i true).loop = e.loop ∧
      ∀ j, getCtx (invalidateAux fuel e i true) j =
        if j ∈ chain e i then (getCtx e j).map setInv else getCtx e j := by
  intro fuel
  induction fuel with
  | zero => intro e i _ hf; omega
  | succ f ih =>
    intro e i hP hf
    cases he : getCtx e i with
    | none =>
      rw [invalidateAux_succ_none he]
      refine ⟨rfl, rfl, ?_⟩
      intro j
      rw [chain_missing he]
      simp
    | some c =>
      have hlt : i < e.ctxs.length := getCtx_lt he
      cases hp : c.parent with
      | none =>
        rw [invalidateAux_succ_root he hp]
        refine ⟨rfl, rfl, ?_⟩
        intro j
        rw [chain_root he hp]
        by_cases hj : j = i
        · subst hj
          rw [if_pos (List.mem_singleton.mpr rfl), getCtx_setCtx_self _ hlt, he]
          rfl
        · rw [if_neg (fun hh => hj (List.mem_singleton.mp hh))]
          exact getCtx_setCtx_ne _ (fun hh => hj hh.symm)
      | some p =>
        have hpi : p < i := hP i c he p hp
        rw [invalidateAux_succ_parent he hp]
        have hP' : ParentsLt (setCtx e i (setInv c)) :=
          parentsLt_setCtx he (parent_setInv c) hP
        obtain ⟨hr, hl, hg⟩ := ih (setCtx e i (setInv c)) p hP' (by omega)
        have hchain : chain (setCtx e i (setInv c)) p = chain e p :=
          chainAux_congr (parent_map_setCtx he (parent_setInv c)) (p + 1) p
        refine ⟨by rw [hr]; rfl, by rw [hl]; rfl, ?_⟩
        intro j
        rw [hg j, hchain, chain_cons hP he hp]
        by_cases hj : j = i
        · subst hj
          have hs : getCtx (setCtx e j (setInv c)) j = some (setInv c) :=
            getCtx_setCtx_self _ hlt
          rw [if_pos (List.mem_cons_self j _), he]
          by_cases hji : j ∈ chain e p
          · rw [if_pos hji, hs]; rfl
          · rw [if_neg hji, hs]; rfl
        · rw [getCtx_setCtx_ne _ (fun hh => hj hh.symm)]
          have hmem : (j ∈ i :: chain e p) ↔ j ∈ chain e p := by
            simp [List.mem_cons, hj]
          by_cases hji : j ∈ chain e p
          · rw [if_pos hji, if_pos (hmem.mpr hji)]
          · rw [if_neg hji, if_neg (fun hh => hji (hmem.mp hh))]

/-- The packaged characterization of `invalidate` with propagation. -/
theorem invalidate_true_spec {e : Engine} (i : Nat) (hP : ParentsLt e) :
    (invalidate e i true).refs = e.refs ∧
    (invalidate e i true).loop = e.loop ∧
    ∀ j, getCtx (invalidate e i true) j =
      if j ∈ chain e i then (getCtx e j).map setInv else getCtx e j :=
  invalidateAux_true_spec (i + 1) e i hP (by omega)

/-- A non-propagating `_invalidate` is a single in-place flag set. -/
theorem invalidate_false_eq {e : Engine} {i : Nat} {c : Ctx} (hget : getCtx e i = some c) :
    invalidate e i false = setCtx e i (setInv c) := by
  rw [invalidate]
  exact invalidateAux_succ_false hget

theorem map_setInv_idem (x : Option Ctx) : (x.map setInv).map setInv = x.map setInv := by
  cases x <;> simp [setInv_idem]

/-- Propagating invalidation is idempotent. -/
theorem invalidate_true_idem {e : Engine} (i : Nat) (hP : ParentsLt e) :
    invalidate (invalidate e i true) i true = invalidate e i true := by
  have hpm : ∀ j, (getCtx (invalidate e i true) j).map Ctx.parent =
      (getCtx e j).map Ctx.parent :=
    fun j => invalidateAux_parent_map (i + 1) e i true j
  have hP1 : ParentsLt (invalidate e i true) := parentsLt_congr hpm hP
  have hchain : chain (invalidate e i true) i = chain e i := chainAux_congr hpm (i + 1) i
  obtain ⟨hr, hl, hg⟩ := invalidate_true_spec (e := e) i hP
  obtain ⟨hr1, hl1, hg1⟩ := invalidate_true_spec (e := invalidate e i true) i hP1
  refine engine_ext ?_ (by rw [hr1, hr]) (by rw [hl1, hl])
  apply List.ext_getElem?
  intro j
  have h1 := hg1 j
  rw [hchain, hg j] at h1
  show getCtx (invalidate (invalidate e i true) i true) j = getCtx (invalidate e i true) j
  rw [h1, hg j]
  by_cases hj : j ∈ chain e i
  · rw [if_pos hj, if_pos hj, map_setInv_idem]
  · rw [if_neg hj, if_neg hj]

/-- Non-propagating invalidation is idempotent. -/
theorem invalidate_false_idem {e : Engine} (i : Nat) :
    invalidate (invalidate e i false) i false = invalidate e i false := by
  cases he : getCtx e i with
  | none =>
    have h0 : invalidate e i false = e := by
      rw [invalidate]; exact invalidateAux_succ_none he
    rw [h0, h0]
  | some c =>
    have hlt := getCtx_lt he
    have hget2 : getCtx (setCtx e i (setInv c)) i = some (setInv c) :=
      getCtx_setCtx_self _ hlt
    rw [invalidate_false_eq he, invalidate_false_eq hget2, setInv_idem]
    refine engine_ext ?_ rfl rfl
    show (setCtx (setCtx e i (setInv c)) i (setInv c)).ctxs = (setCtx e i (setInv c)).ctxs
    simp [setCtx, List.set_set]

end Reapyr

namespace Reapyr

mutual

/-- Python `==` on elements is exactly structural equality of the model. -/
theorem elBeq_iff : ∀ a b : Element, elBeq a b = true ↔ a = b
  | .text c1 k1 s1, .text c2 k2 s2 => by
    simp [elBeq, elBeqList_iff c1 c2, and_assoc]
  | .text _ _ _, .box _ _ => by simp [elBeq]
  | .text _ _ _, .comp _ _ _ _ => by simp [elBeq]
  | .box _ _, .text _ _ _ => by simp [elBeq]
  | .box c1 k1, .box c2 k2 => by
    simp [elBeq, elBeqList_iff c1 c2]
  | .box _ _, .comp _ _ _ _ => by simp [elBeq]
  | .comp _ _ _ _, .text _ _ _ => by simp [elBeq]
  | .comp _ _ _ _, .box _ _ => by simp [elBeq]
  | .comp c1 k1 t1 p1, .comp c2 k2 t2 p2 => by
    simp [elBeq, elBeqList_iff c1 c2, and_assoc]

/-- Python `==` on lists of elements is structural equality. -/
theorem elBeqList_iff : ∀ as bs : List Element, elBeqList as bs = true ↔ as = bs
  | [], [] => by simp [elBeqList]
  | [], _ :: _ => by simp [elBeqList]
  | _ :: _, [] => by simp [elBeqList]
  | a :: as, b :: bs => by
    simp [elBeqList, elBeq_iff a b, elBeqList_iff as bs]

end

end Reapyr

namespace Reapyr

/-- Claim C1: for every context whose invalidated flag is false and whose
materialized cache is non-empty, `materialize()` returns the identical
cached primitive tree and leaves the engine state unchanged — for any
render behaviour whatsoever, so no render is invoked, no hook slot or
cursor changes, no work is enqueued and no child context is created,
rebound or detached. -/
theorem c1_materialize_clean_cache (render : RenderFn) (fuel : Nat) (e : Engine)
    (i : Nat) (c : Ctx) (p : Element) (hget : getCtx e i = some c)
    (hinv : c.invalidated = false) (hmat : c.materialized = some p) :
    materialize render (fuel + 1) e i = some (p, e) := by
  simp [materialize, matAux, hget, hinv, hmat]

/-- Witness for C1 at a concrete clean, cached engine. -/
theorem c1_materialize_clean_cache_witness :
    materialize demoRender 1 engClean 0 = some (.text [] "" "x", engClean) :=
  c1_materialize_clean_cache demoRender 0 engClean 0
    { ctxW with invalidated := false, materialized := some (.text [] "" "x") }
    (.text [] "" "x") rfl rfl rfl

/-- Claim C2: keyed child matching is strictly positional per `(type, key)`
bucket.  In the literal scenario, pass 1 (`Parent(2)`, requesting two
`TextChild(key="a")` children) creates two distinct child contexts `1` and
`2` in bucket `("TextChild", "a")` in request order, both parented to the
root; pass 2 (`Parent(1)`, requesting one such child) reuses the bucket's
first context and pushes the new props into it, while the second context is
detached — its parent reference is cleared — after finalization. -/
theorem c2_keyed_reconciliation_scenario :
    (materialize demoRender 10 demoE0 0).map Prod.fst =
      some (.box [.text [] "" "hi", .text [] "" "hi"] "") ∧
    demoE1.ctxs.length = 3 ∧
    (getCtx demoE1 0).map (fun c => bucketGet c.subMap ("TextChild", "a")) =
      some [1, 2] ∧
    (getCtx demoE1 1).map Ctx.parent = some (some 0) ∧
    (getCtx demoE1 2).map Ctx.parent = some (some 0) ∧
    (getCtx demoE1 1).map Ctx.component = some (textChild 2) ∧
    (getCtx demoE1 2).map Ctx.component = some (textChild 2) ∧
    (setProps demoE1 0 (parentComp 1)).1 = .ok ∧
    (materialize demoRender 10 demoE1b 0).map Prod.fst =
      some (.box [.text [] "" "hi"] "") ∧
    demoE2.ctxs.length = 3 ∧
    (getCtx demoE2 0).map (fun c => bucketGet c.subMap ("TextChild", "a")) =
      some [1] ∧
    (getCtx demoE2 1).map Ctx.component = some (textChild 1) ∧
    (getCtx demoE2 1).map Ctx.parent = some (some 0) ∧
    (getCtx demoE2 2).map Ctx.parent = some none :=
  ⟨rfl, rfl, rfl, rfl, rfl, rfl, rfl, rfl, rfl, rfl, rfl, rfl, rfl, rfl⟩

/-- Claim C7 (failing trace): `stop()` does set the running flag to false
and set the wake signal, but a pending stop can skip draining: callback `7`
is already in the queue at the moment `stop()` is requested, yet
`run_forever` terminates (`phase = done`) without ever executing it. -/
theorem c7_stop_skips_queued_work :
    c7AtStop.wl.queue = [7] ∧
    c7AtStop.wl.running = false ∧
    c7AtStop.wl.event = true ∧
    c7Final.phase = .done ∧
    c7Final.wl.executed = [] ∧
    c7Final.wl.queue = [7] :=
  ⟨rfl, rfl, rfl, rfl, rfl, rfl⟩

/-- Claim C8 (counterexample): the claim "the hash operation is well-defined
for every Primitive" fails at the concrete primitive `Text(text="")` — its
generated dataclass hash raises `TypeError`, because the `children` field is
a list. -/
theorem c8_hash_counterexample :
    isPrimitive (.text [] "" "") = true ∧ elemHashable (.text [] "" "") = false :=
  ⟨rfl, rfl⟩

/-- Claim C8 (amended): element equality is purely structural — two elements
compare `==` exactly when they have the same concrete type and value-equal
fields including children recursively — but the hash operation is not
well-defined: it raises `TypeError` for every Primitive, since the
`children` field is a list. -/
theorem c8_structural_eq_hash_amended :
    (∀ a b : Element, elBeq a b = true ↔ a = b) ∧
    (∀ e : Element, isPrimitive e = true → elemHashable e = false) := by
  refine ⟨elBeq_iff, ?_⟩
  intro e he
  cases e with
  | text c k s => rfl
  | box c k => rfl
  | comp c k t p => simp [isPrimitive] at he

/-- Witness for C8's amended statement at concrete elements. -/
theorem c8_structural_eq_hash_amended_witness :
    (elBeq (.box [.text [] "" "a"] "") (.box [.text [] "" "a"] "") = true) ∧
    elemHashable (.box [] "") = false :=
  ⟨(c8_structural_eq_hash_amended.1 _ _).mpr rfl,
   c8_structural_eq_hash_amended.2 (.box [] "") rfl⟩

/-- Claim C10: `run_forever` unconditionally sets the running flag to true
on entry, before its first iteration, and enters the drain phase — so a
`stop()` issued before `run_forever` begins is overridden and does not
prevent the loop from entering its drain/sleep cycle. -/
theorem c10_run_forever_sets_running (pre : WorkLoop → WorkLoop)
    (runCb : Nat → WorkLoop → WorkLoop) (s : LoopState) (h : s.phase = .idle) :
    (loopStep pre runCb s .start).wl.running = true ∧
    (loopStep pre runCb s .start).phase = .drain ∧
    (loopStep pre runCb s .start).wl.queue = s.wl.queue := by
  cases s with
  | mk wl phase =>
    cases h
    exact ⟨rfl, rfl, rfl⟩

/-- Witness for C10: a loop stopped before starting (running flag false)
still enters the drain phase with the flag forced back to true. -/
theorem c10_run_forever_sets_running_witness :
    (stopL wl0).running = false ∧
    (loopStep id inertCb { wl := stopL wl0, phase := .idle } .start).wl.running = true ∧
    (loopStep id inertCb { wl := stopL wl0, phase := .idle } .start).phase = .drain :=
  ⟨rfl, (c10_run_forever_sets_running id inertCb _ rfl).1,
   (c10_run_forever_sets_running id inertCb _ rfl).2.1⟩

end Reapyr

namespace Reapyr

/-- Claim C3: the props update `_set_props` is a complete no-op for a
structurally-equal component; for a structurally-different component of the
same concrete type and key it replaces the stored component and invalidates
only that context (every other context untouched); a different concrete
type raises the type-mismatch error and a same-type different key raises
the key-mismatch error, and in both error cases the engine is returned
entirely unchanged (the update is rejected atomically). -/
theorem c3_set_props (e : Engine) (i : Nat) (c : Ctx) (newComponent : Element)
    (hget : getCtx e i = some c) :
    (elBeq newComponent c.component = true → setProps e i newComponent = (.ok, e)) ∧
    (elBeq newComponent c.component = false →
      typeNameOf newComponent = typeNameOf c.component →
      keyOf newComponent = keyOf c.component →
      setProps e i newComponent =
        (.ok, setCtx e i { c with component := newComponent, invalidated := true }) ∧
      ∀ j, j ≠ i → getCtx (setProps e i newComponent).2 j = getCtx e j) ∧
    (typeNameOf newComponent ≠ typeNameOf c.component →
      setProps e i newComponent = (.typeMismatch, e)) ∧
    (typeNameOf newComponent = typeNameOf c.component →
      keyOf newComponent ≠ keyOf c.component →
      setProps e i newComponent = (.keyMismatch, e)) := by
  refine ⟨?_, ?_, ?_, ?_⟩
  · intro hbe
    simp [setProps, hget, hbe]
  · intro hbe hty hkey
    have hmain : setProps e i newComponent =
        (.ok, setCtx e i { c with component := newComponent, invalidated := true }) := by
      rw [setProps, hget]
      simp only [hbe, Bool.false_eq_true, if_false, hty, hkey, beq_self_eq_true,
        Bool.not_true, if_false]
      rw [invalidate_false_eq (getCtx_setCtx_self _ (getCtx_lt hget))]
      refine congrArg (Prod.mk PropsResult.ok) ?_
      refine engine_ext ?_ rfl rfl
      show ((setCtx e i _).ctxs.set i _) = _
      simp [setCtx, List.set_set]
      rfl
    refine ⟨hmain, ?_⟩
    intro j hj
    rw [hmain]
    exact getCtx_setCtx_ne _ (fun hh => hj hh.symm)
  · intro hty
    have hbe : elBeq newComponent c.component = false := by
      cases hb : elBeq newComponent c.component with
      | false => rfl
      | true =>
        exact absurd (congrArg typeNameOf ((elBeq_iff _ _).mp hb)) hty
    simp [setProps, hget, hbe, hty]
  · intro hty hkey
    have hbe : elBeq newComponent c.component = false := by
      cases hb : elBeq newComponent c.component with
      | false => rfl
      | true =>
        exact absurd (congrArg keyOf ((elBeq_iff _ _).mp hb)) hkey
    simp [setProps, hget, hbe, hty, hkey]

/-- Witness for C3: all four branches at concrete engines — structurally
equal (no-op), same type and key with new props (local invalidation),
different type (type mismatch, engine untouched), different key (key
mismatch, engine untouched). -/
theorem c3_set_props_witness :
    setProps engChild 1 (textChild 0) = (.ok, engChild) ∧
    (setProps engChild 1 (textChild 3)).1 = .ok ∧
    (getCtx (setProps engChild 1 (textChild 3)).2 1).map Ctx.component =
      some (textChild 3) ∧
    getCtx (setProps engChild 1 (textChild 3)).2 0 = getCtx engChild 0 ∧
    setProps engChild 1 (.comp [] "a" "Other" []) = (.typeMismatch, engChild) ∧
    setProps engChild 1 (.comp [] "b" "TextChild" []) = (.keyMismatch, engChild) := by
  have h := c3_set_props engChild 1 ctxChild1
  refine ⟨(h (textChild 0) rfl).1 rfl, ?_, ?_, ?_,
    (h (.comp [] "a" "Other" []) rfl).2.2.1 (by decide),
    (h (.comp [] "b" "TextChild" []) rfl).2.2.2 rfl (by decide)⟩
  · rw [((h (textChild 3) rfl).2.1 rfl rfl rfl).1]
  · rw [((h (textChild 3) rfl).2.1 rfl rfl rfl).1]
    rfl
  · exact ((h (textChild 3) rfl).2.1 rfl rfl rfl).2 0 (by decide)

end Reapyr

namespace Reapyr

/-- Claim C5: `use_effect(callback, deps)` on first allocation at a cursor
position stores `(callback, deps)` and enqueues the callback on the work
loop (never invoking it: the executed trace is untouched); on a later
render at the same position, a value-equal dependency sequence stores
nothing and enqueues nothing (the stored callback is left untouched), and a
different sequence replaces the slot and enqueues the new callback exactly
once. -/
theorem c5_use_effect (e : Engine) (i : Nat) (c : Ctx) (cb : Nat) (deps : List Value)
    (hget : getCtx e i = some c) :
    (c.effectIndex = c.effectList.length →
      useEffect e i cb deps =
        some (pushWork (setCtx e i
          { c with effectIndex := c.effectIndex + 1
                   effectList := c.effectList ++ [(cb, deps)] }) cb) ∧
      (useEffect e i cb deps).map (fun e1 => e1.loop.queue) =
        some (e.loop.queue ++ [cb]) ∧
      (useEffect e i cb deps).map (fun e1 => e1.loop.executed) =
        some e.loop.executed) ∧
    (∀ cb0 oldDeps, c.effectList[c.effectIndex]? = some (cb0, oldDeps) →
      (oldDeps = deps →
        useEffect e i cb deps =
          some (setCtx e i { c with effectIndex := c.effectIndex + 1 }) ∧
        (useEffect e i cb deps).map (fun e1 => e1.loop.queue) = some e.loop.queue ∧
        (useEffect e i cb deps).map (fun e1 => (getCtx e1 i).map Ctx.effectList) =
          some (some c.effectList)) ∧
      (oldDeps ≠ deps →
        useEffect e i cb deps =
          some (pushWork (setCtx e i
            { c with effectIndex := c.effectIndex + 1
                     effectList := c.effectList.set c.effectIndex (cb, deps) }) cb) ∧
        (useEffect e i cb deps).map (fun e1 => e1.loop.queue) =
          some (e.loop.queue ++ [cb]))) := by
  constructor
  · intro hfirst
    have hmain : useEffect e i cb deps =
        some (pushWork (setCtx e i
          { c with effectIndex := c.effectIndex + 1
                   effectList := c.effectList ++ [(cb, deps)] }) cb) := by
      rw [useEffect, hget]
      simp [hfirst]
    refine ⟨hmain, ?_, ?_⟩
    · rw [hmain]; rfl
    · rw [hmain]; rfl
  · intro cb0 oldDeps hslot
    have hlt : c.effectIndex < c.effectList.length :=
      (List.getElem?_eq_some_iff.mp hslot).1
    constructor
    · intro heq
      have hmain : useEffect e i cb deps =
          some (setCtx e i { c with effectIndex := c.effectIndex + 1 }) := by
        rw [useEffect, hget]
        simp only [if_neg (Nat.not_le.mpr hlt)]
        rw [show ({ c with effectIndex := c.effectIndex + 1 } : Ctx).effectList
            = c.effectList from rfl]
        rw [hslot]
        simp [heq]
      refine ⟨hmain, by rw [hmain]; rfl, ?_⟩
      rw [hmain]
      have hself := getCtx_setCtx_self (e := e)
        { c with effectIndex := c.effectIndex + 1 } (getCtx_lt hget)
      simp [hself]
    · intro hne
      have hmain : useEffect e i cb deps =
          some (pushWork (setCtx e i
            { c with effectIndex := c.effectIndex + 1
                     effectList := c.effectList.set c.effectIndex (cb, deps) }) cb) := by
        rw [useEffect, hget]
        simp only [if_neg (Nat.not_le.mpr hlt)]
        rw [show ({ c with effectIndex := c.effectIndex + 1 } : Ctx).effectList
            = c.effectList from rfl]
        rw [hslot]
        simp [hne]
      exact ⟨hmain, by rw [hmain]; rfl⟩

/-- Witness for C5: a first call at a fresh context enqueues and stores; an
unchanged dependency list neither stores nor enqueues; a changed dependency
list replaces the slot and enqueues once. -/
theorem c5_use_effect_witness :
    useEffect engW 0 5 [] =
      some (pushWork (setCtx engW 0
        { ctxW with effectIndex := 1, effectList := [(5, [])] }) 5) ∧
    useEffect engEffect 0 7 [.int 5] =
      some (setCtx engEffect 0 { ctxW with effectList := [(0, [.int 5])]
                                           effectIndex := 1 }) ∧
    (useEffect engEffect 0 7 [.int 5]).map (fun e1 => e1.loop.queue) = some [] ∧
    useEffect engEffect 0 7 [.int 6] =
      some (pushWork (setCtx engEffect 0
        { ctxW with effectList := [(7, [.int 6])], effectIndex := 1 }) 7) := by
  refine ⟨?_, ?_, ?_, ?_⟩
  · exact ((c5_use_effect engW 0 ctxW 5 [] rfl).1 rfl).1
  · exact (((c5_use_effect engEffect 0 _ 7 [.int 5] rfl).2 0 [.int 5] rfl).1 rfl).1
  · exact (((c5_use_effect engEffect 0 _ 7 [.int 5] rfl).2 0 [.int 5] rfl).1 rfl).2.1
  · exact (((c5_use_effect engEffect 0 _ 7 [.int 6] rfl).2 0 [.int 5] rfl).2
      (by decide)).1

/-- Claim C9: `use_ref(initial)` allocates a cell holding the initial value
on first call at a cursor position and returns the identical cell (same
heap index) on every later call at that position with the initial argument
ignored; `_begin_materialization` (a re-render) preserves the ref slots and
the ref heap; and an external write to a cell's `current` field changes no
context, no work-loop state, and only that one heap cell. -/
theorem c9_use_ref (e : Engine) (i : Nat) (c : Ctx) (hget : getCtx e i = some c) :
    (∀ initialValue, c.refIndex = c.refList.length →
      useRef e i initialValue =
        some (e.refs.length,
          setCtx { e with refs := e.refs ++ [initialValue] } i
            { c with refList := c.refList ++ [e.refs.length]
                     refIndex := c.refIndex + 1 })) ∧
    (∀ initialValue r, c.refList[c.refIndex]? = some r →
      useRef e i initialValue = some (r, setCtx e i { c with refIndex := c.refIndex + 1 })) ∧
    (getCtx (beginMaterialization e i) i = some (beginC c) ∧
      (beginMaterialization e i).refs = e.refs ∧
      (beginC c).refList = c.refList) ∧
    (∀ r v, (refWrite e r v).ctxs = e.ctxs ∧
      (refWrite e r v).loop = e.loop ∧
      (r < e.refs.length → (refWrite e r v).refs[r]? = some v) ∧
      ∀ r2, r2 ≠ r → (refWrite e r v).refs[r2]? = e.refs[r2]?) := by
  refine ⟨?_, ?_, ⟨?_, ?_, rfl⟩, ?_⟩
  · intro initialValue hfirst
    simp [useRef, hget, hfirst, List.getElem?_concat_length]
  · intro initialValue r hslot
    have hlt : c.refIndex < c.refList.length := (List.getElem?_eq_some_iff.mp hslot).1
    simp [useRef, hget, Nat.not_le.mpr hlt, hslot]
  · rw [beginMaterialization, hget]
    exact getCtx_setCtx_self _ (getCtx_lt hget)
  · rw [beginMaterialization, hget]
    rfl
  · intro r v
    refine ⟨rfl, rfl, ?_, ?_⟩
    · intro hr
      simp [refWrite, List.getElem?_set_self hr]
    · intro r2 hr2
      simp [refWrite, List.getElem?_set_ne (fun hh => hr2 hh.symm)]

/-- Witness for C9: a fresh context allocates cell `0` holding the initial
value; a context with the slot already allocated gets the identical cell
back with the initial argument ignored and the heap untouched; a write to
the cell is invisible to contexts and the loop. -/
theorem c9_use_ref_witness :
    useRef engW 0 (.int 3) =
      some (0, setCtx { engW with refs := [.int 3] } 0
        { ctxW with refList := [0], refIndex := 1 }) ∧
    useRef engRef 0 (.int 11) =
      some (0, setCtx engRef 0 { ctxW with refList := [0], refIndex := 1 }) ∧
    (refWrite engRef 0 (.int 4)).ctxs = engRef.ctxs ∧
    (refWrite engRef 0 (.int 4)).loop = engRef.loop ∧
    (refWrite engRef 0 (.int 4)).refs[0]? = some (.int 4) := by
  have h1 := c9_use_ref engW 0 ctxW rfl
  have h2 := c9_use_ref engRef 0 { ctxW with refList := [0] } rfl
  refine ⟨h1.1 (.int 3) rfl, h2.2.1 (.int 11) 0 rfl,
    (h2.2.2.2 0 (.int 4)).1, (h2.2.2.2 0 (.int 4)).2.1,
    (h2.2.2.2 0 (.int 4)).2.2.1 (by decide)⟩

end Reapyr

namespace Reapyr

/-- Claim C4: `use_state(initial)` on first call at a cursor position
appends a slot holding the initial value; every later call at that position
returns the stored value with the initial argument ignored; the slot index
equals the call-order cursor, which increments per call (independent,
order-stable slots); and each invocation of a returned setter overwrites
its slot in place, sets the invalidated flag of the owning context and of
every ancestor on its chain (and of nothing else), and triggers exactly one
work-loop wake — the event is set, the wake count rises by one, and the
queue is untouched. -/
theorem c4_use_state (e : Engine) (i : Nat) (c : Ctx) (hget : getCtx e i = some c) :
    (∀ initialValue, c.stateIndex = c.stateList.length →
      useState e i initialValue =
        some ((initialValue, c.stateIndex),
          setCtx e i { c with stateIndex := c.stateIndex + 1
                              stateList := c.stateList ++ [initialValue] })) ∧
    (∀ initialValue v, c.stateList[c.stateIndex]? = some v →
      useState e i initialValue =
        some ((v, c.stateIndex), setCtx e i { c with stateIndex := c.stateIndex + 1 })) ∧
    (∀ index v, index < c.stateList.length → parentsLtB e.ctxs = true →
      (getCtx (setState e i index v) i).map Ctx.stateList =
        some (c.stateList.set index v) ∧
      (∀ j, j ∈ chain e i →
        (getCtx (setState e i index v) j).map Ctx.invalidated = some true) ∧
      (∀ j, j ∉ chain e i → getCtx (setState e i index v) j = getCtx e j) ∧
      (setState e i index v).refs = e.refs ∧
      (setState e i index v).loop.queue = e.loop.queue ∧
      (setState e i index v).loop.event = true ∧
      (setState e i index v).loop.wakes = e.loop.wakes + 1 ∧
      (setState e i index v).loop.executed = e.loop.executed) := by
  refine ⟨?_, ?_, ?_⟩
  · intro initialValue hfirst
    simp [useState, hget, hfirst, List.getElem?_concat_length]
  · intro initialValue v hslot
    have hlt : c.stateIndex < c.stateList.length := (List.getElem?_eq_some_iff.mp hslot).1
    simp [useState, hget, Nat.not_le.mpr hlt, hslot]
  · intro index v hidx hB
    have hPe : ParentsLt e := parentsLt_of_B hB
    have hred : setState e i index v =
        wake (invalidate (setCtx e i { c with stateList := c.stateList.set index v }) i true) := by
      rw [setState, hget]
    have hgeb : getCtx (setCtx e i { c with stateList := c.stateList.set index v }) i =
        some { c with stateList := c.stateList.set index v } :=
      getCtx_setCtx_self _ (getCtx_lt hget)
    have hPb : ParentsLt (setCtx e i { c with stateList := c.stateList.set index v }) :=
      parentsLt_setCtx hget rfl hPe
    obtain ⟨hr, hl, hg⟩ :=
      invalidate_true_spec (e := setCtx e i { c with stateList := c.stateList.set index v }) i hPb
    have hchain : chain (setCtx e i { c with stateList := c.stateList.set index v }) i =
        chain e i :=
      chainAux_congr
        (parent_map_setCtx hget
          (show ({ c with stateList := c.stateList.set index v } : Ctx).parent = c.parent
            from rfl))
        (i + 1) i
    rw [hchain] at hg
    refine ⟨?_, ?_, ?_, ?_, ?_, ?_, ?_, ?_⟩
    · rw [hred]
      show ((getCtx (invalidate _ i true) i).map Ctx.stateList) = _
      rw [hg i, if_pos (self_mem_chain hget), hgeb]
      rfl
    · intro j hj
      rw [hred]
      show ((getCtx (invalidate _ i true) j).map Ctx.invalidated) = some true
      rw [hg j, if_pos hj]
      have hsome : (getCtx (setCtx e i { c with stateList := c.stateList.set index v }) j).isSome :=
        mem_chain_isSome (hchain ▸ hj)
      obtain ⟨cx, hx⟩ := Option.isSome_iff_exists.mp hsome
      rw [hx]
      rfl
    · intro j hj
      have hij : j ≠ i := by
        intro hh
        subst hh
        exact hj (self_mem_chain hget)
      rw [hred]
      show getCtx (invalidate _ i true) j = getCtx e j
      rw [hg j, if_neg hj]
      exact getCtx_setCtx_ne _ (fun hh => hij hh.symm)
    · rw [hred]
      show (invalidate _ i true).refs = e.refs
      rw [hr]
      rfl
    · rw [hred]
      show (wakeL (invalidate _ i true).loop).queue = e.loop.queue
      rw [hl]
      rfl
    · rw [hred]
      show (wakeL (invalidate _ i true).loop).event = true
      rfl
    · rw [hred]
      show (wakeL (invalidate _ i true).loop).wakes = e.loop.wakes + 1
      rw [hl]
      rfl
    · rw [hred]
      show (wakeL (invalidate _ i true).loop).executed = e.loop.executed
      rw [hl]
      rfl

/-- Witness for C4: at a concrete two-context engine, a first call appends
the slot; the setter overwrites the slot, invalidates the child and its
root ancestor, and produces exactly one wake with nothing enqueued. -/
theorem c4_use_state_witness :
    useState engChild 1 (.int 7) =
      some ((.int 7, 1),
        setCtx engChild 1 { ctxChild1 with stateIndex := 2
                                           stateList := [.int 5, .int 7] }) ∧
    (getCtx (setState engChild 1 0 (.int 7)) 1).map Ctx.stateList = some [.int 7] ∧
    (getCtx (setState engChild 1 0 (.int 7)) 0).map Ctx.invalidated = some true ∧
    (getCtx (setState engChild 1 0 (.int 7)) 1).map Ctx.invalidated = some true ∧
    (setState engChild 1 0 (.int 7)).loop.event = true ∧
    (setState engChild 1 0 (.int 7)).loop.wakes = engChild.loop.wakes + 1 ∧
    (setState engChild 1 0 (.int 7)).loop.queue = engChild.loop.queue := by
  have h := c4_use_state engChild 1 ctxChild1 rfl
  have hs := h.2.2 0 (.int 7) (by decide) (by decide)
  exact ⟨h.1 (.int 7) rfl, hs.1, hs.2.1 0 (by decide), hs.2.1 1 (by decide),
    hs.2.2.2.2.2.1, hs.2.2.2.2.2.2.1, hs.2.2.2.2.1⟩

/-- Claim C6: invalidating with `propagate=true` sets the invalidated flag
on the context and on every ancestor up to the root (its chain) and touches
nothing else — every off-chain context, the refs and the work loop are
unchanged; invalidating with `propagate=false` sets the flag only on that
context; and both forms are idempotent. -/
theorem c6_invalidate (e : Engine) (i : Nat) (hB : parentsLtB e.ctxs = true) :
    (∀ j, getCtx (invalidate e i true) j =
      if j ∈ chain e i then (getCtx e j).map setInv else getCtx e j) ∧
    (∀ j, j ∈ chain e i →
      (getCtx (invalidate e i true) j).map Ctx.invalidated = some true) ∧
    (invalidate e i true).refs = e.refs ∧
    (invalidate e i true).loop = e.loop ∧
    (∀ c, getCtx e i = some c →
      invalidate e i false = setCtx e i (setInv c) ∧
      ∀ j, j ≠ i → getCtx (invalidate e i false) j = getCtx e j) ∧
    invalidate (invalidate e i true) i true = invalidate e i true ∧
    invalidate (invalidate e i false) i false = invalidate e i false := by
  have hPe : ParentsLt e := parentsLt_of_B hB
  obtain ⟨hr, hl, hg⟩ := invalidate_true_spec (e := e) i hPe
  refine ⟨hg, ?_, hr, hl, ?_, invalidate_true_idem i hPe, invalidate_false_idem i⟩
  · intro j hj
    rw [hg j, if_pos hj]
    have hsome : (getCtx e j).isSome := mem_chain_isSome hj
    obtain ⟨cx, hx⟩ := Option.isSome_iff_exists.mp hsome
    rw [hx]
    rfl
  · intro c hc
    refine ⟨invalidate_false_eq hc, ?_⟩
    intro j hj
    rw [invalidate_false_eq hc]
    exact getCtx_setCtx_ne _ (fun hh => hj hh.symm)

/-- Witness for C6: at the concrete two-context engine, propagating
invalidation of the child marks both the child and the root; local
invalidation of the child leaves the root untouched. -/
theorem c6_invalidate_witness :
    (getCtx (invalidate engChild 1 true) 0).map Ctx.invalidated = some true ∧
    (getCtx (invalidate engChild 1 true) 1).map Ctx.invalidated = some true ∧
    invalidate engChild 1 false = setCtx engChild 1 (setInv ctxChild1) ∧
    getCtx (invalidate engChild 1 false) 0 = getCtx engChild 0 := by
  have h := c6_invalidate engChild 1 (by decide)
  exact ⟨h.2.1 0 (by decide), h.2.1 1 (by decide),
    (h.2.2.2.2.1 ctxChild1 rfl).1, (h.2.2.2.2.1 ctxChild1 rfl).2 0 (by decide)⟩

end Reapyr
